import Mathlib

/-! Verification of the lux evm migration scripts
(fix_go_ethereum_imports.py, fix_luxfi_imports.py, fix_syntax_errors.py,
create_missing_interfaces.py).  File contents, lines and paths are
modelled as lists of characters.  Python str.replace is modelled by a
fuelled left-to-right scanner with the same leftmost, non-overlapping
semantics; the fuel is always instantiated with the length of the
scanned string, which suffices because every step consumes at least one
character. -/

namespace EvmFix

/-- Characters of a string literal. -/
def chars (s : String) : List Char := s.toList

/-- The double-quote character. -/
def dquoteC : Char := Char.ofNat 34

/-- The single-quote character. -/
def squoteC : Char := Char.ofNat 39

/-- Python str.replace(p, r): scan left to right and replace each
leftmost non-overlapping occurrence of p by r.  In the match branch the
scanner skips the whole matched span: for nonempty p,
(c :: cs).drop p.length = cs.drop (p.length - 1). -/
def repF (p r : List Char) : Nat → List Char → List Char
  | _, [] => []
  | 0, s => s
  | fuel + 1, c :: cs =>
    if p.isPrefixOf (c :: cs) then r ++ repF p r fuel (cs.drop (p.length - 1))
    else c :: repF p r fuel cs

/-- content.replace(p, r) on character lists. -/
def replaceAll (p r s : List Char) : List Char := repF p r s.length s

/-- The pattern p wrapped in double quotes, as in the Python
f-string f-quote old-import-quote of fix_go_ethereum_imports.py. -/
def quoteD (p : List Char) : List Char := dquoteC :: (p ++ [dquoteC])

/-- The pattern p wrapped in single quotes. -/
def quoteS (p : List Char) : List Char := squoteC :: (p ++ [squoteC])

/-- import_mappings of fix_go_ethereum_imports.py, in dict insertion
order (Python dicts preserve it). -/
def goMappings : List (List Char × List Char) := [
  (chars ("github.com/luxdefi/evm/core/types"), chars ("github.com/ethereum/go-ethereum/core/types")),
  (chars ("github.com/luxdefi/evm/core/rawdb"), chars ("github.com/ethereum/go-ethereum/core/rawdb")),
  (chars ("github.com/luxdefi/evm/core/vm"), chars ("github.com/ethereum/go-ethereum/core/vm")),
  (chars ("github.com/luxdefi/evm/accounts"), chars ("github.com/ethereum/go-ethereum/accounts")),
  (chars ("github.com/luxdefi/evm/accounts/external"), chars ("github.com/ethereum/go-ethereum/accounts/external")),
  (chars ("github.com/luxdefi/evm/accounts/keystore"), chars ("github.com/ethereum/go-ethereum/accounts/keystore")),
  (chars ("github.com/luxdefi/evm/ethdb"), chars ("github.com/ethereum/go-ethereum/ethdb")),
  (chars ("github.com/luxdefi/evm/trie"), chars ("github.com/ethereum/go-ethereum/trie")),
  (chars ("github.com/luxdefi/evm/metrics"), chars ("github.com/ethereum/go-ethereum/metrics")),
  (chars ("github.com/luxdefi/evm/interfaces/ethdb"), chars ("github.com/ethereum/go-ethereum/ethdb")),
  (chars ("github.com/luxdefi/evm/interfaces/core/vm"), chars ("github.com/ethereum/go-ethereum/core/vm")),
  (chars ("github.com/luxdefi/evm/interfaces/libevm"), chars ("github.com/ethereum/go-ethereum/libevm")),
  (chars ("github.com/luxdefi/evm/interfaces/libevm/legacy"), chars ("github.com/ethereum/go-ethereum/libevm/legacy")),
  (chars ("github.com/luxdefi/evm/interfaces/libevm/stateconf"), chars ("github.com/ethereum/go-ethereum/libevm/stateconf")),
  (chars ("github.com/luxdefi/evm/interfaces/params"), chars ("github.com/ethereum/go-ethereum/params")),
  (chars ("github.com/luxdefi/evm/interfaces/trie/trienode"), chars ("github.com/ethereum/go-ethereum/trie/trienode")),
  (chars ("github.com/luxdefi/evm/interfaces/trie/triestate"), chars ("github.com/ethereum/go-ethereum/trie/triestate")),
  (chars ("github.com/luxdefi/evm/interfaces/triedb"), chars ("github.com/ethereum/go-ethereum/triedb")),
  (chars ("github.com/luxdefi/evm/interfaces/triedb/database"), chars ("github.com/ethereum/go-ethereum/triedb/database")),
  (chars ("github.com/luxdefi/evm/interfaces/triedb/pathdb"), chars ("github.com/ethereum/go-ethereum/triedb/pathdb")),
  (chars ("golang.org/x/exp/slices"), chars ("slices")),
  (chars ("golang.org/x/exp/slog"), chars ("log/slog"))]

/-- One iteration of the mapping loop of fix_go_file
(fix_go_ethereum_imports.py lines 44-46): replace the double-quoted
literal form, then the single-quoted one. -/
def applyMapping (content : List Char) (m : List Char × List Char) : List Char :=
  replaceAll (quoteS m.1) (quoteS m.2) (replaceAll (quoteD m.1) (quoteD m.2) content)

/-- The whole-content rewrite of fix_go_file in
fix_go_ethereum_imports.py: all mappings applied in table order. -/
def geth_rewrite (content : List Char) : List Char :=
  goMappings.foldl applyMapping content

/-- fix_go_file of fix_go_ethereum_imports.py: returns the content on
disk after the call together with the returned changed flag (the file
is rewritten only when the new content differs). -/
def geth_fixGoFile (content : List Char) : List Char × Bool :=
  if geth_rewrite content ≠ content then (geth_rewrite content, true) else (content, false)

/-- fix_go_file of fix_go_ethereum_imports.py with the write made
explicit: the first component is some written-content exactly when an
open-for-write happened. -/
def geth_fixGoFile_disk (content : List Char) : Option (List Char) × Bool :=
  if geth_rewrite content ≠ content then (some (geth_rewrite content), true) else (content |> fun _ => none, false)

/-- The single pattern of fix_luxfi_imports.py. -/
def luxfiOldP : List Char := chars ("github.com/luxdefi/node")

/-- Its replacement. -/
def luxfiNewP : List Char := chars ("github.com/luxfi/node")

/-- The whole-content rewrite of fix_go_file in fix_luxfi_imports.py
(line 13): one bare, unquoted str.replace. -/
def luxfi_rewrite (content : List Char) : List Char :=
  replaceAll luxfiOldP luxfiNewP content

/-- fix_go_file of fix_luxfi_imports.py: content on disk after the
call and the returned changed flag. -/
def luxfi_fixGoFile (content : List Char) : List Char × Bool :=
  if luxfi_rewrite content ≠ content then (luxfi_rewrite content, true) else (content, false)

/-- Pattern of the first repair rule of fix_syntax_errors.py. -/
def pIf : List Char := chars ("_, _ = if")

/-- Pattern of the second repair rule. -/
def pReturn : List Char := chars ("_, _ = return")

/-- Literal prefix of the third (regex) repair rule _ = (defer.*). -/
def pDefer : List Char := chars ("_ = defer")

/-- Literal prefix of the fourth (regex) repair rule. -/
def pD7 : List Char := chars ("_, _ = ")

/-- Python regex word character.  The source files the script targets
are ASCII Go sources, so the Unicode part of re's backslash-w class is
not modelled. -/
def isWordChar (c : Char) : Bool :=
  (Char.ofNat 97 ≤ c && c ≤ Char.ofNat 122) ||
  (Char.ofNat 65 ≤ c && c ≤ Char.ofNat 90) ||
  (Char.ofNat 48 ≤ c && c ≤ Char.ofNat 57) || c = Char.ofNat 95

/-- re.sub of the pattern underscore-space-equals-space-group-defer-dot-star
with replacement group-1, as applied in fix_syntax_errors.py line 22.
A match starts at a literal occurrence of the 9 characters of pDefer and
extends greedily over every following non-newline character; the
replacement keeps the group, i.e. drops the leading 4 characters of the
match. -/
def reSubDeferF (fuel : Nat) (s : List Char) : List Char :=
  match fuel, s with
  | _, [] => []
  | 0, s => s
  | f + 1, c :: cs =>
    if pDefer.isPrefixOf (c :: cs) then
      let rest := cs.drop (pDefer.length - 1)
      chars ("defer") ++ rest.takeWhile (· ≠ Char.ofNat 10) ++
        reSubDeferF f (rest.dropWhile (· ≠ Char.ofNat 10))
    else c :: reSubDeferF f cs

/-- reSubDeferF with its fuel instantiated. -/
def reSubDefer (s : List Char) : List Char := reSubDeferF s.length s

/-- Match the regex underscore-comma pattern of fix_syntax_errors.py
line 25 at the head of s; returns the length of the whole match.  The
greedy word-runs need no backtracking because the characters required
after them (comma, space) are not word characters. -/
def matchDouble (s : List Char) : Option Nat :=
  if pD7.isPrefixOf s then
    let r1 := s.drop 7
    let w1 := r1.takeWhile isWordChar
    if w1.isEmpty then none
    else
      let r2 := r1.drop w1.length
      if (chars (", ")).isPrefixOf r2 then
        let r3 := r2.drop 2
        let w2 := r3.takeWhile isWordChar
        if w2.isEmpty then none
        else
          let r4 := r3.drop w2.length
          if (chars (" =")).isPrefixOf r4 then
            some (7 + w1.length + 2 + w2.length + 2)
          else none
      else none
  else none

/-- re.sub of the double-assignment rule with replacement group-1: the
group is the match minus its first 7 characters. -/
def reSubDoubleF (fuel : Nat) (s : List Char) : List Char :=
  match fuel, s with
  | _, [] => []
  | 0, s => s
  | f + 1, c :: cs =>
    match matchDouble (c :: cs) with
    | some n => ((c :: cs).take n).drop 7 ++ reSubDoubleF f ((c :: cs).drop n)
    | none => c :: reSubDoubleF f cs

/-- reSubDoubleF with its fuel instantiated. -/
def reSubDouble (s : List Char) : List Char := reSubDoubleF s.length s

/-- re.search of the double-assignment regex: does it match anywhere? -/
def hasDouble : List Char → Bool
  | [] => false
  | c :: cs => (matchDouble (c :: cs)).isSome || hasDouble cs

/-- The loop body of fix_syntax_errors for one entry of lines.  NOTE:
faithful to the source, every rule tests and transforms the variable
line, which keeps the ORIGINAL text of the line for the whole
iteration; each rule's assignment to lines[i] overwrites the previous
rule's.  Returns the final lines[i] and whether any rule fired. -/
def fixLine (line : List Char) : List Char × Bool :=
  let s0 : List Char × Bool := (line, false)
  let s1 : List Char × Bool :=
    if pIf <:+: line then (replaceAll pIf (chars ("if")) line, true) else s0
  let s2 : List Char × Bool :=
    if pReturn <:+: line then (replaceAll pReturn (chars ("return")) line, true) else s1
  let s3 : List Char × Bool :=
    if pDefer <:+: line then (reSubDefer line, true) else s2
  let s4 : List Char × Bool :=
    if hasDouble line then (reSubDouble line, true) else s3
  s4

/-- fix_syntax_errors applied to the readlines list of a file: the
rewritten lines and the modified flag (the file is rewritten with
exactly this list iff the flag is true). -/
def fix_syntax_errors (lines : List (List Char)) : List (List Char) × Bool :=
  ((lines.map fixLine).map Prod.fst, (lines.map fixLine).any Prod.snd)

/-- Names excluded by the process_directory functions. -/
def vendorL : List Char := chars ("vendor")

/-- The second excluded name. -/
def gitL : List Char := chars (".git")

/-- The skip test of process_directory (fix_go_ethereum_imports.py
lines 59-62 and fix_luxfi_imports.py lines 26-29): substring test on
the whole directory path. -/
def excludedDir (root : List Char) : Bool :=
  decide (vendorL <:+: root) || decide (gitL <:+: root)

/-- file.endswith of the go suffix. -/
def endsGo (f : List Char) : Bool := (chars (".go")).isSuffixOf f

/-- The files visited by process_directory of both rewrite scripts,
as (directory path, file name) pairs, given the os.walk listing of the
tree as (root, files-in-root) pairs. -/
def process_directory_scan : List (List Char × List (List Char)) → List (List Char × List Char)
  | [] => []
  | e :: rest =>
    if excludedDir e.1 then process_directory_scan rest
    else (e.2.filter endsGo).map (fun f => (e.1, f)) ++ process_directory_scan rest

/-- A path component starting with a dot (glob's star does not match a
leading dot, so such directories are skipped by the syntax-repair
scanner). -/
def hiddenComponent (root : List Char) : Bool :=
  (root.splitOn (Char.ofNat 47)).any (fun comp => comp.headD (Char.ofNat 32) == Char.ofNat 46)

/-- The files visited by the syntax-repair driver
(fix_syntax_errors.py lines 42-47): glob of star-star-slash-star-go
with recursive=True.  No vendor or git exclusion is applied; only
dot-directories and dot-files are invisible to glob's star. -/
def glob_go : List (List Char × List (List Char)) → List (List Char × List Char)
  | [] => []
  | e :: rest =>
    if hiddenComponent e.1 then glob_go rest
    else (e.2.filter (fun f => endsGo f && !(f.headD (Char.ofNat 32) == Char.ofNat 46))).map
      (fun f => (e.1, f)) ++ glob_go rest

/-- Error raised by Python file IO, left abstract. -/
inductive PyErr where
  | ioError
deriving DecidableEq

/-- The per-file loop of process_directory in
fix_go_ethereum_imports.py (lines 55-70): each file is read and fixed
in turn; there is no try/except, so the first read that raises
propagates, ends the loop, and leaves the remaining files unprocessed.
Input: the files in visit order, each with its read outcome.  Output:
the files actually processed (path, content after, changed flag) and
the propagated error, if any. -/
def process_directory_run :
    List (List Char × Except PyErr (List Char)) →
      List (List Char × List Char × Bool) × Option PyErr
  | [] => ([], none)
  | (_, Except.error e) :: _ => ([], some e)
  | (p, Except.ok c) :: rest =>
    let r := geth_fixGoFile c
    let rec' := process_directory_run rest
    ((p, r.1, r.2) :: rec'.1, rec'.2)

/-- A filesystem snapshot for create_missing_interfaces.py: which
directory paths exist and what content each file path holds. -/
structure FS where
  dirs : List Char → Bool
  files : List Char → Option (List Char)

/-- The target root the script joins every relative path onto. -/
def evmRoot : List Char := chars ("/Users/z/work/lux/evm")

/-- All proper prefixes of p that end just before a slash: the chain
of parent directories os.makedirs(os.path.dirname(p), exist_ok=True)
guarantees to exist afterwards. -/
def parentDirs (p : List Char) : List (List Char) :=
  (List.range p.length).filterMap
    (fun i => if p.get? i = some (Char.ofNat 47) then some (p.take i) else none)

/-- One iteration of the loop of create_missing_interfaces.py (lines
148-153): makedirs of the dirname with exist_ok=True, then write of
the content, overwriting whatever was there. -/
def ensure (fs : FS) (spec : List Char × List Char) : FS :=
  let full := evmRoot ++ Char.ofNat 47 :: spec.1
  { dirs := fun d => fs.dirs d || decide (d ∈ parentDirs full)
    files := fun q => if q = full then some spec.2 else fs.files q }

/-- The whole loop over interfaces_to_create. -/
def create_missing_interfaces (fs : FS) (specs : List (List Char × List Char)) : FS :=
  specs.foldl ensure fs

/-- The first entry of interfaces_to_create, used as a concrete
witness; the full table is configuration data. -/
def asmSpec : List Char × List Char :=
  (chars ("interfaces/core/asm/asm.go"),
   chars ("package asm\n\n// Placeholder interface for core/asm\ntype Interface interface\x7b\x7d\n"))


/-- A line containing the match patterns of rule 1 and rule 2 of
fix_syntax_errors.py. -/
def c1Line : List Char := chars ("_, _ = if ok; _, _ = return x\n")

/-- The trie pattern of goMappings. -/
def trieOld : List Char := chars ("github.com/luxdefi/evm/trie")

/-- A content on which the go-ethereum rewrite is not idempotent: a
double-quoted occurrence of the trie pattern whose closing quote is
immediately followed by a second, bare occurrence and a quote. -/
def c2Content : List Char := quoteD trieOld ++ trieOld ++ [dquoteC]

/-- The empty filesystem, used as a concrete witness input. -/
def emptyFS : FS := { dirs := fun _ => false, files := fun _ => none }

theorem repF_nil (p r : List Char) (f : Nat) : repF p r f [] = [] := by
  cases f <;> rfl

theorem repF_cons_pos (p r : List Char) (a : Nat) (c : Char) (cs : List Char)
    (h : p.isPrefixOf (c :: cs) = true) :
    repF p r (a + 1) (c :: cs) = r ++ repF p r a (cs.drop (p.length - 1)) := by
  simp [repF, h]

theorem repF_cons_neg (p r : List Char) (a : Nat) (c : Char) (cs : List Char)
    (h : p.isPrefixOf (c :: cs) = false) :
    repF p r (a + 1) (c :: cs) = c :: repF p r a cs := by
  simp [repF, h]

theorem repF_fuel (p r : List Char) :
    ∀ f₁ f₂ s, s.length ≤ f₁ → s.length ≤ f₂ → repF p r f₁ s = repF p r f₂ s := by
  intro f₁
  induction f₁ with
  | zero =>
    intro f₂ s h₁ _
    have hs : s = [] := List.length_eq_zero.mp (Nat.le_zero.mp h₁)
    subst hs
    rw [repF_nil, repF_nil]
  | succ a ih =>
    intro f₂ s h₁ h₂
    cases s with
    | nil => rw [repF_nil, repF_nil]
    | cons c cs =>
      cases f₂ with
      | zero => simp at h₂
      | succ b =>
        have hca : cs.length ≤ a := by simpa using h₁
        have hcb : cs.length ≤ b := by simpa using h₂
        have hdca : (cs.drop (p.length - 1)).length ≤ a := by
          rw [List.length_drop]; omega
        have hdcb : (cs.drop (p.length - 1)).length ≤ b := by
          rw [List.length_drop]; omega
        cases hp : p.isPrefixOf (c :: cs) with
        | true =>
          rw [repF_cons_pos p r a c cs hp, repF_cons_pos p r b c cs hp,
            ih b _ hdca hdcb]
        | false =>
          rw [repF_cons_neg p r a c cs hp, repF_cons_neg p r b c cs hp,
            ih b cs hca hcb]

theorem repF_no_occ (p r : List Char) :
    ∀ f s, s.length ≤ f → ¬ p <:+: s → repF p r f s = s := by
  intro f
  induction f with
  | zero =>
    intro s h₁ _
    have hs : s = [] := List.length_eq_zero.mp (Nat.le_zero.mp h₁)
    subst hs
    exact repF_nil p r 0
  | succ a ih =>
    intro s h₁ hocc
    cases s with
    | nil => exact repF_nil p r (a + 1)
    | cons c cs =>
      have hca : cs.length ≤ a := by simpa using h₁
      cases hp : p.isPrefixOf (c :: cs) with
      | true =>
        exact absurd ((List.isPrefixOf_iff_prefix.mp hp).isInfix) hocc
      | false =>
        rw [repF_cons_neg p r a c cs hp, ih cs hca (fun h => hocc (List.infix_cons h))]

/-- If p does not occur in s, str.replace leaves s unchanged. -/
theorem replaceAll_no_occ (p r s : List Char) (h : ¬ p <:+: s) : replaceAll p r s = s :=
  repF_no_occ p r s.length s le_rfl h

theorem repF_append (p r : List Char) (hp : p ≠ []) :
    ∀ f A B, (A ++ p ++ B).length ≤ f → ¬ p <:+: (A ++ p.dropLast) →
      repF p r f (A ++ p ++ B) = A ++ r ++ replaceAll p r B := by
  have hlenp : 1 ≤ p.length := Nat.one_le_iff_ne_zero.mpr
    (fun h => hp (List.length_eq_zero.mp h))
  intro f
  induction f with
  | zero =>
    intro A B h₁ _
    exfalso
    rw [List.length_append, List.length_append] at h₁
    omega
  | succ a ih =>
    intro A B h₁ hA
    cases A with
    | nil =>
      cases p with
      | nil => exact absurd rfl hp
      | cons p0 ps =>
        have hpre : (p0 :: ps).isPrefixOf (p0 :: (ps ++ B)) = true :=
          List.isPrefixOf_iff_prefix.mpr ⟨B, by simp⟩
        have hgoal : repF (p0 :: ps) r (a + 1) (p0 :: (ps ++ B)) =
            r ++ repF (p0 :: ps) r a ((ps ++ B).drop ((p0 :: ps).length - 1)) :=
          repF_cons_pos (p0 :: ps) r a p0 (ps ++ B) hpre
        have hdrop : (ps ++ B).drop ((p0 :: ps).length - 1) = B := by
          simp only [List.length_cons, Nat.add_sub_cancel]
          exact List.drop_left ps B
        have hlenB : B.length ≤ a := by
          rw [List.length_append, List.length_append] at h₁
          simp only [List.length_nil, List.length_cons] at h₁
          omega
        show repF (p0 :: ps) r (a + 1) (p0 :: (ps ++ B)) = [] ++ r ++ replaceAll (p0 :: ps) r B
        rw [hgoal, hdrop, repF_fuel (p0 :: ps) r a B.length B hlenB le_rfl]
        rfl
    | cons x A' =>
      have hnp : p.isPrefixOf (x :: (A' ++ p ++ B)) = false := by
        cases hq : p.isPrefixOf (x :: (A' ++ p ++ B)) with
        | false => rfl
        | true =>
          exfalso
          apply hA
          have hpre : p <+: (x :: (A' ++ p ++ B)) := List.isPrefixOf_iff_prefix.mp hq
          have hmeat : p.dropLast ++ ([p.getLast hp] ++ B) = p ++ B := by
            rw [← List.append_assoc, List.dropLast_append_getLast hp]
          have hsplit : x :: (A' ++ p ++ B) = (x :: A' ++ p.dropLast) ++ ([p.getLast hp] ++ B) := by
            calc x :: (A' ++ p ++ B)
                = x :: A' ++ (p ++ B) := by simp [List.append_assoc]
              _ = x :: A' ++ (p.dropLast ++ ([p.getLast hp] ++ B)) := by rw [hmeat]
              _ = (x :: A' ++ p.dropLast) ++ ([p.getLast hp] ++ B) := by
                  rw [List.append_assoc]
          have hlenle : p.length ≤ (x :: A' ++ p.dropLast).length := by
            simp only [List.cons_append, List.length_cons, List.length_append,
              List.length_dropLast]
            omega
          have htake : p = ((x :: A' ++ p.dropLast) ++ ([p.getLast hp] ++ B)).take p.length := by
            rw [← hsplit]
            exact List.prefix_iff_eq_take.mp hpre
          rw [List.take_append_eq_append_take, Nat.sub_eq_zero_of_le hlenle,
            List.take_zero, List.append_nil] at htake
          exact (List.prefix_iff_eq_take.mpr htake).isInfix
      have hAle : ¬ p <:+: (A' ++ p.dropLast) := by
        intro h
        exact hA (List.infix_cons h)
      have hlen : (A' ++ p ++ B).length ≤ a := by
        simpa using h₁
      show repF p r (a + 1) (x :: (A' ++ p ++ B)) = x :: A' ++ r ++ replaceAll p r B
      rw [repF_cons_neg p r a x (A' ++ p ++ B) hnp, ih A' B hlen hAle]
      simp

/-- Frame rule for str.replace: an occurrence of p after a chunk A in
which no occurrence of p starts is rewritten to r, leaving A untouched
and continuing on the remainder. -/
theorem replaceAll_append (p r A B : List Char) (hp : p ≠ [])
    (hA : ¬ p <:+: (A ++ p.dropLast)) :
    replaceAll p r (A ++ p ++ B) = A ++ r ++ replaceAll p r B :=
  repF_append p r hp (A ++ p ++ B).length A B le_rfl hA

theorem count_repF (p r : List Char) (x : Char) (hp : p ≠ [])
    (hxp : x ∉ p) (hxr : x ∉ r) :
    ∀ f s, s.length ≤ f → (repF p r f s).count x = s.count x := by
  have hlenp : 1 ≤ p.length := Nat.one_le_iff_ne_zero.mpr
    (fun h => hp (List.length_eq_zero.mp h))
  intro f
  induction f with
  | zero =>
    intro s h₁
    have hs : s = [] := List.length_eq_zero.mp (Nat.le_zero.mp h₁)
    subst hs
    rw [repF_nil]
  | succ a ih =>
    intro s h₁
    cases s with
    | nil => rw [repF_nil]
    | cons c cs =>
      have hca : cs.length ≤ a := by simpa using h₁
      cases hq : p.isPrefixOf (c :: cs) with
      | true =>
        obtain ⟨t, ht⟩ := List.isPrefixOf_iff_prefix.mp hq
        have htd : t = cs.drop (p.length - 1) := by
          have hdl : (p ++ t).drop p.length = t := List.drop_left p t
          rw [ht] at hdl
          cases hpl : p.length with
          | zero => omega
          | succ k =>
            rw [hpl] at hdl
            simpa using hdl.symm
        have hdc : (cs.drop (p.length - 1)).length ≤ a := by
          rw [List.length_drop]; omega
        have h0p : p.count x = 0 := List.count_eq_zero.mpr hxp
        have h0r : r.count x = 0 := List.count_eq_zero.mpr hxr
        rw [repF_cons_pos p r a c cs hq, List.count_append, ih _ hdc, ← htd, ← ht,
          List.count_append, h0p, h0r]
      | false =>
        rw [repF_cons_neg p r a c cs hq, List.count_cons, List.count_cons, ih cs hca]

/-- Character-count preservation for str.replace when the counted
character occurs in neither the pattern nor the replacement. -/
theorem count_replaceAll (p r s : List Char) (x : Char) (hp : p ≠ [])
    (hxp : x ∉ p) (hxr : x ∉ r) :
    (replaceAll p r s).count x = s.count x :=
  count_repF p r x hp hxp hxr s.length s le_rfl


theorem foldl_applyMapping_no_occ :
    ∀ (l : List (List Char × List Char)) (C : List Char),
      (∀ m ∈ l, ¬ quoteD m.1 <:+: C ∧ ¬ quoteS m.1 <:+: C) → l.foldl applyMapping C = C := by
  intro l
  induction l with
  | nil => intro C _; rfl
  | cons m ms ih =>
    intro C h
    have h1 := h m (List.mem_cons_self m ms)
    have hstep : applyMapping C m = C := by
      unfold applyMapping
      rw [replaceAll_no_occ _ _ _ h1.1, replaceAll_no_occ _ _ _ h1.2]
    rw [List.foldl_cons, hstep]
    exact ih C (fun m' hm' => h m' (List.mem_cons_of_mem m hm'))

/-- C1: the Pattern Repairer does NOT re-test rules against the
already-transformed line: every rule of fix_syntax_errors.py reads the
loop variable line, which holds the original text, so on a line
matching both the if-rule and the return-rule the second assignment to
lines[i] discards the first fix and the if-rule's match pattern is
still present after the single per-line pass. -/
theorem c1_stale_line_bug :
    (fixLine c1Line).1 = chars ("_, _ = if ok; return x\n") ∧ pIf <:+: (fixLine c1Line).1 := by
  constructor
  · decide
  · decide

set_option maxRecDepth 100000 in
/-- C2: the go-ethereum rewrite is not idempotent.  On c2Content the
first pass rewrites the double-quoted trie occurrence, and the closing
quote of the inserted replacement together with the following bare
occurrence and quote forms a fresh quoted occurrence of the same
pattern, so the second application reports changed = true again. -/
theorem c2_second_pass_changed :
    (geth_fixGoFile ((geth_fixGoFile c2Content).1)).2 = true := by
  decide

/-- C4 counterexample: with an unreadable first file, the batch of
fix_go_ethereum_imports.py does not skip-and-continue: the run stops
with the propagated error, the second file is never processed and no
failure record is produced. -/
theorem c4_abort_counterexample :
    process_directory_run [(chars ("a.go"), Except.error PyErr.ioError),
      (chars ("b.go"), Except.ok (chars ("package b\n")))] = ([], some PyErr.ioError) := by
  decide

/-- C4 amended: a read error on a file is not caught; the run aborts
there with the error and no later file of the batch is processed. -/
theorem c4_error_aborts_batch (p : List Char) (e : PyErr)
    (rest : List (List Char × Except PyErr (List Char))) :
    process_directory_run ((p, Except.error e) :: rest) = ([], some e) := rfl

/-- C5: the changed flag of fix_go_file is true exactly when the
rewritten content differs from the original, the file is written back
exactly when the flag is true, and on content containing no rule
pattern (in either quoted form) the result is the unchanged content
with changed = false; likewise for the luxfi variant. -/
theorem c5_flag_write_contract (C : List Char) :
    ((geth_fixGoFile C).2 = true ↔ geth_rewrite C ≠ C)
  ∧ ((geth_fixGoFile_disk C).1.isSome = (geth_fixGoFile C).2)
  ∧ ((∀ m ∈ goMappings, ¬ quoteD m.1 <:+: C ∧ ¬ quoteS m.1 <:+: C) →
      geth_fixGoFile C = (C, false))
  ∧ ((luxfi_fixGoFile C).2 = true ↔ luxfi_rewrite C ≠ C)
  ∧ (¬ luxfiOldP <:+: C → luxfi_fixGoFile C = (C, false)) := by
  refine ⟨?_, ?_, ?_, ?_, ?_⟩
  · by_cases h : geth_rewrite C ≠ C <;> simp [geth_fixGoFile, h]
  · by_cases h : geth_rewrite C ≠ C <;> simp [geth_fixGoFile, geth_fixGoFile_disk, h]
  · intro h
    have hid : geth_rewrite C = C := foldl_applyMapping_no_occ goMappings C h
    simp [geth_fixGoFile, hid]
  · by_cases h : luxfi_rewrite C ≠ C <;> simp [luxfi_fixGoFile, h]
  · intro h
    have hid : luxfi_rewrite C = C := replaceAll_no_occ _ _ _ h
    simp [luxfi_fixGoFile, hid]

theorem c5_witness :
    geth_fixGoFile (chars ("package main\n")) = (chars ("package main\n"), false) :=
  (c5_flag_write_contract (chars ("package main\n"))).2.2.1 (by decide)

/-- C6: a rule with quoting replaces the double-quoted literal form
and the single-quoted literal form independently, preserving the quote
style and leaving the surrounding text untouched: a double-quoted
occurrence becomes the double-quoted replacement verbatim, and a
single-quoted occurrence is untouched by the double-quote substitution
and becomes the single-quoted replacement. -/
theorem c6_quoting_fidelity (p r A B : List Char) :
    (¬ quoteD p <:+: (A ++ (quoteD p).dropLast) → ¬ quoteD p <:+: B →
      ¬ quoteS p <:+: (A ++ quoteD r ++ B) →
      applyMapping (A ++ quoteD p ++ B) (p, r) = A ++ quoteD r ++ B)
  ∧ (¬ quoteD p <:+: (A ++ quoteS p ++ B) →
      ¬ quoteS p <:+: (A ++ (quoteS p).dropLast) → ¬ quoteS p <:+: B →
      applyMapping (A ++ quoteS p ++ B) (p, r) = A ++ quoteS r ++ B) := by
  constructor
  · intro h1 h2 h3
    show replaceAll (quoteS p) (quoteS r) (replaceAll (quoteD p) (quoteD r) (A ++ quoteD p ++ B)) =
      A ++ quoteD r ++ B
    rw [replaceAll_append (quoteD p) (quoteD r) A B (by simp [quoteD]) h1,
      replaceAll_no_occ _ _ _ h2, replaceAll_no_occ _ _ _ h3]
  · intro h1 h2 h3
    show replaceAll (quoteS p) (quoteS r) (replaceAll (quoteD p) (quoteD r) (A ++ quoteS p ++ B)) =
      A ++ quoteS r ++ B
    rw [replaceAll_no_occ _ _ _ h1,
      replaceAll_append (quoteS p) (quoteS r) A B (by simp [quoteS]) h2,
      replaceAll_no_occ _ _ _ h3]

theorem c6_witness :
    applyMapping ((chars ("import ")) ++ quoteD (chars ("github.com/old/path")) ++ (chars ("\n")))
        ((chars ("github.com/old/path")), (chars ("github.com/new/path"))) =
      (chars ("import ")) ++ quoteD (chars ("github.com/new/path")) ++ (chars ("\n")) :=
  (c6_quoting_fidelity (chars ("github.com/old/path")) (chars ("github.com/new/path"))
    (chars ("import ")) (chars ("\n"))).1 (by decide) (by decide) (by decide)

/-- C7: on a line where only the if-rule matches, the repair replaces
exactly the matched span, keeping the leading text A (indentation) and
the trailing text B (code, inline comment) of the line unchanged. -/
theorem c7_line_scoped_repair (A B : List Char)
    (h1 : ¬ pIf <:+: (A ++ pIf.dropLast))
    (h2 : ¬ pIf <:+: B)
    (h3 : ¬ pReturn <:+: (A ++ pIf ++ B))
    (h4 : ¬ pDefer <:+: (A ++ pIf ++ B))
    (h5 : hasDouble (A ++ pIf ++ B) = false) :
    fixLine (A ++ pIf ++ B) = (A ++ chars ("if") ++ B, true) := by
  have hin : pIf <:+: (A ++ pIf ++ B) := ⟨A, B, rfl⟩
  simp only [fixLine, if_pos hin, if_neg h3, if_neg h4, h5, Bool.false_eq_true, if_false]
  rw [replaceAll_append pIf (chars ("if")) A B (by decide) h1, replaceAll_no_occ _ _ _ h2]

theorem c7_witness :
    fixLine ((chars ("\t")) ++ pIf ++ (chars (" ok // comment\n"))) =
      ((chars ("\t")) ++ chars ("if") ++ (chars (" ok // comment\n")), true) :=
  c7_line_scoped_repair (chars ("\t")) (chars (" ok // comment\n"))
    (by decide) (by decide) (by decide) (by decide) (by decide)

/-- C8: for every filesystem and spec, the loop body of
create_missing_interfaces.py leaves every parent directory of the
joined target path present (existing ones included, without error),
stores the spec's content at the path overwriting anything previous,
and running it twice equals running it once. -/
theorem c8_ensure_scaffold (fs : FS) (spec : List Char × List Char) :
    (∀ d ∈ parentDirs (evmRoot ++ Char.ofNat 47 :: spec.1), (ensure fs spec).dirs d = true)
  ∧ (ensure fs spec).files (evmRoot ++ Char.ofNat 47 :: spec.1) = some spec.2
  ∧ ensure (ensure fs spec) spec = ensure fs spec := by
  refine ⟨?_, ?_, ?_⟩
  · intro d hd
    simp [ensure, hd]
  · simp [ensure]
  · unfold ensure
    simp only
    congr 1
    · funext d
      by_cases hd : d ∈ parentDirs (evmRoot ++ Char.ofNat 47 :: spec.1)
      · simp [hd]
      · simp [hd]
    · funext q
      by_cases hq : q = evmRoot ++ Char.ofNat 47 :: spec.1
      · simp [hq]
      · simp [hq]

theorem c8_witness :
    (ensure emptyFS asmSpec).dirs (chars ("/Users/z/work/lux/evm/interfaces/core/asm")) = true :=
  (c8_ensure_scaffold emptyFS asmSpec).1 (chars ("/Users/z/work/lux/evm/interfaces/core/asm"))
    (by decide)

/-- C3 counterexample: in syntax-repair mode the scanner is a bare
recursive glob with no vendor exclusion, so a go file inside a vendor
directory appears in its output. -/
theorem c3_syntax_mode_counterexample :
    glob_go [(chars ("vendor"), [chars ("a.go")])] = [(chars ("vendor"), chars ("a.go"))] := by
  decide

/-- C3 amended: in the path-rewrite and luxfi-rename modes the claim
holds: every file the scanner emits comes from a directory whose path
passes the exclusion test, and any directory lying under a subtree
whose path contains vendor or .git fails that test. -/
theorem c3_rewrite_mode_exclusion (walk : List (List Char × List (List Char))) :
    (∀ e ∈ process_directory_scan walk, excludedDir e.1 = false)
  ∧ (∀ sub root : List Char, (vendorL <:+: sub ∨ gitL <:+: sub) → sub <+: root →
      excludedDir root = true) := by
  constructor
  · induction walk with
    | nil => intro e he; simp [process_directory_scan] at he
    | cons w rest ih =>
      intro e he
      by_cases hw : excludedDir w.1 = true
      · rw [process_directory_scan, if_pos hw] at he
        exact ih e he
      · have hw' : excludedDir w.1 = false := Bool.eq_false_iff.mpr hw
        rw [process_directory_scan, if_neg (by simp [hw'])] at he
        rcases List.mem_append.mp he with hl | hr
        · obtain ⟨f, _, rfl⟩ := List.mem_map.mp hl
          exact hw'
        · exact ih e hr
  · intro sub root hname hpre
    unfold excludedDir
    cases hname with
    | inl h =>
      have hroot : vendorL <:+: root := h.trans hpre.isInfix
      simp [hroot]
    | inr h =>
      have hroot : gitL <:+: root := h.trans hpre.isInfix
      simp [hroot]

theorem c3_witness :
    excludedDir (chars ("app")) = false ∧ excludedDir (chars ("x/vendor/sub")) = true :=
  ⟨(c3_rewrite_mode_exclusion [(chars ("app"), [chars ("m.go")])]).1
      ((chars ("app")), (chars ("m.go"))) (by decide),
   (c3_rewrite_mode_exclusion []).2 (chars ("x/vendor")) (chars ("x/vendor/sub"))
      (Or.inl (by decide)) (by decide)⟩

/-- C10: the luxdefi-to-luxfi rule is a bare whole-content substring
replacement with no anchoring: every occurrence after a chunk in which
none starts is rewritten whatever surrounds it, the scan continuing on
the rest of the content, and a concrete content shows occurrences
inside a longer quoted module path and inside a comment both
rewritten. -/
theorem c10_bare_substring_rule :
    (∀ A B : List Char, ¬ luxfiOldP <:+: (A ++ luxfiOldP.dropLast) →
      luxfi_rewrite (A ++ luxfiOldP ++ B) = A ++ luxfiNewP ++ luxfi_rewrite B)
  ∧ luxfi_rewrite
      (chars ("import \"github.com/luxdefi/node/utils/set\" // github.com/luxdefi/node docs")) =
      chars ("import \"github.com/luxfi/node/utils/set\" // github.com/luxfi/node docs") := by
  constructor
  · intro A B hA
    exact replaceAll_append luxfiOldP luxfiNewP A B (by decide) hA
  · decide

theorem c10_witness :
    luxfi_rewrite ((chars ("// see ")) ++ luxfiOldP ++ (chars ("/rpc"))) =
      (chars ("// see ")) ++ luxfiNewP ++ luxfi_rewrite (chars ("/rpc")) :=
  c10_bare_substring_rule.1 (chars ("// see ")) (chars ("/rpc")) (by decide)


theorem reSubDeferF_nil (f : Nat) : reSubDeferF f [] = [] := by
  cases f <;> rfl

theorem reSubDeferF_cons_pos (f : Nat) (c : Char) (cs : List Char)
    (h : pDefer.isPrefixOf (c :: cs) = true) :
    reSubDeferF (f + 1) (c :: cs) =
      chars ("defer") ++ (cs.drop (pDefer.length - 1)).takeWhile (· ≠ Char.ofNat 10) ++
        reSubDeferF f ((cs.drop (pDefer.length - 1)).dropWhile (· ≠ Char.ofNat 10)) := by
  simp [reSubDeferF, h]

theorem reSubDeferF_cons_neg (f : Nat) (c : Char) (cs : List Char)
    (h : pDefer.isPrefixOf (c :: cs) = false) :
    reSubDeferF (f + 1) (c :: cs) = c :: reSubDeferF f cs := by
  simp [reSubDeferF, h]

theorem reSubDoubleF_nil (f : Nat) : reSubDoubleF f [] = [] := by
  cases f <;> rfl

theorem reSubDoubleF_cons_some (f : Nat) (c : Char) (cs : List Char) (n : Nat)
    (h : matchDouble (c :: cs) = some n) :
    reSubDoubleF (f + 1) (c :: cs) =
      ((c :: cs).take n).drop 7 ++ reSubDoubleF f ((c :: cs).drop n) := by
  simp [reSubDoubleF, h]

theorem reSubDoubleF_cons_none (f : Nat) (c : Char) (cs : List Char)
    (h : matchDouble (c :: cs) = none) :
    reSubDoubleF (f + 1) (c :: cs) = c :: reSubDoubleF f cs := by
  simp [reSubDoubleF, h]

theorem matchDouble_spec (s : List Char) (n : Nat) (h : matchDouble s = some n) :
    pD7 <+: s ∧ 13 ≤ n ∧ n ≤ s.length := by
  simp only [matchDouble] at h
  split_ifs at h with h1 h2 h3 h4 h5
  have hn := Option.some_inj.mp h
  subst hn
  have hpre : pD7 <+: s := List.isPrefixOf_iff_prefix.mp h1
  have h7 : pD7.length = 7 := by decide
  have hl7 : 7 ≤ s.length := by
    have := hpre.length_le
    omega
  have hw1 : ((s.drop 7).takeWhile isWordChar).length ≠ 0 := by
    intro h0
    exact h2 (by rw [List.length_eq_zero.mp h0]; rfl)
  have hw2 : (((((s.drop 7).drop ((s.drop 7).takeWhile isWordChar).length)).drop 2).takeWhile
      isWordChar).length ≠ 0 := by
    intro h0
    exact h4 (by rw [List.length_eq_zero.mp h0]; rfl)
  have hlw1 : ((s.drop 7).takeWhile isWordChar).length ≤ (s.drop 7).length :=
    (List.takeWhile_prefix isWordChar).length_le
  have hlw2 : (((((s.drop 7).drop ((s.drop 7).takeWhile isWordChar).length)).drop 2).takeWhile
      isWordChar).length ≤
      ((((s.drop 7).drop ((s.drop 7).takeWhile isWordChar).length)).drop 2).length :=
    (List.takeWhile_prefix isWordChar).length_le
  have hlen2 : (chars (" =")).length = 2 := by decide
  have hr4 := (List.isPrefixOf_iff_prefix.mp h5).length_le
  rw [hlen2] at hr4
  simp only [List.length_drop] at hlw1 hlw2 hr4
  refine ⟨hpre, by omega, by omega⟩

theorem count_reSubDeferF (x : Char) (hx1 : x ∉ pDefer) (hx2 : x ∉ chars ("defer")) :
    ∀ f s, s.length ≤ f → (reSubDeferF f s).count x = s.count x := by
  intro f
  induction f with
  | zero =>
    intro s h₁
    have hs : s = [] := List.length_eq_zero.mp (Nat.le_zero.mp h₁)
    subst hs
    rw [reSubDeferF_nil]
  | succ a ih =>
    intro s h₁
    cases s with
    | nil => rw [reSubDeferF_nil]
    | cons c cs =>
      have hca : cs.length ≤ a := by simpa using h₁
      cases hq : pDefer.isPrefixOf (c :: cs) with
      | false =>
        rw [reSubDeferF_cons_neg a c cs hq, List.count_cons, List.count_cons, ih cs hca]
      | true =>
        obtain ⟨t, ht⟩ := List.isPrefixOf_iff_prefix.mp hq
        have htd : t = cs.drop (pDefer.length - 1) := by
          have hdl : (pDefer ++ t).drop pDefer.length = t := List.drop_left pDefer t
          rw [ht] at hdl
          simpa [pDefer, chars] using hdl.symm
        have hDlen : (t.dropWhile (· ≠ Char.ofNat 10)).length ≤ a := by
          have h1 : (t.dropWhile (· ≠ Char.ofNat 10)).length ≤ t.length :=
            (List.dropWhile_suffix _).length_le
          have h2 : t.length ≤ cs.length := by
            rw [htd, List.length_drop]
            omega
          omega
        rw [reSubDeferF_cons_pos a c cs hq, ← htd, List.count_append, List.count_append,
          ih _ hDlen, List.count_eq_zero.mpr hx2, ← ht, List.count_append,
          List.count_eq_zero.mpr hx1]
        conv_rhs => rw [← List.takeWhile_append_dropWhile (· ≠ Char.ofNat 10) t]
        rw [List.count_append]
        omega

theorem count_reSubDoubleF (x : Char) (hx : x ∉ pD7) :
    ∀ f s, s.length ≤ f → (reSubDoubleF f s).count x = s.count x := by
  intro f
  induction f with
  | zero =>
    intro s h₁
    have hs : s = [] := List.length_eq_zero.mp (Nat.le_zero.mp h₁)
    subst hs
    rw [reSubDoubleF_nil]
  | succ a ih =>
    intro s h₁
    cases s with
    | nil => rw [reSubDoubleF_nil]
    | cons c cs =>
      cases hm : matchDouble (c :: cs) with
      | none =>
        rw [reSubDoubleF_cons_none a c cs hm, List.count_cons, List.count_cons,
          ih cs (by simpa using h₁)]
      | some n =>
        obtain ⟨hpre, hn13, hnle⟩ := matchDouble_spec (c :: cs) n hm
        have h7 : pD7.length = 7 := by decide
        have htk7 : ((c :: cs).take n).take 7 = pD7 := by
          rw [List.take_take]
          have hmin : min 7 n = 7 := by omega
          rw [hmin]
          have := List.prefix_iff_eq_take.mp hpre
          rw [h7] at this
          exact this.symm
        have hsplit : (c :: cs).take n = pD7 ++ ((c :: cs).take n).drop 7 := by
          conv_lhs => rw [← List.take_append_drop 7 ((c :: cs).take n)]
          rw [htk7]
        have hcount : (((c :: cs).take n).drop 7).count x = ((c :: cs).take n).count x := by
          conv_rhs => rw [hsplit]
          rw [List.count_append, List.count_eq_zero.mpr hx]
          omega
        have hdl : ((c :: cs).drop n).length ≤ a := by
          rw [List.length_drop]
          have : (c :: cs).length = cs.length + 1 := by simp
          omega
        rw [reSubDoubleF_cons_some a c cs n hm, List.count_append, ih _ hdl, hcount,
          ← List.count_append, List.take_append_drop]

theorem count_reSubDefer (x : Char) (hx1 : x ∉ pDefer) (hx2 : x ∉ chars ("defer"))
    (s : List Char) : (reSubDefer s).count x = s.count x :=
  count_reSubDeferF x hx1 hx2 s.length s le_rfl

theorem count_reSubDouble (x : Char) (hx : x ∉ pD7) (s : List Char) :
    (reSubDouble s).count x = s.count x :=
  count_reSubDoubleF x hx s.length s le_rfl

/-- C9: the syntax repairer preserves line structure: the output list
has exactly as many entries as the input, a line matched by no rule is
returned byte-for-byte unchanged with the flag false, and no per-line
transform creates or removes newline characters, so rejoining the
lines keeps the file's line count. -/
theorem c9_line_structure :
    (∀ lines : List (List Char), (fix_syntax_errors lines).1.length = lines.length)
  ∧ (∀ l : List Char, ¬ pIf <:+: l → ¬ pReturn <:+: l → ¬ pDefer <:+: l →
      hasDouble l = false → fixLine l = (l, false))
  ∧ (∀ l : List Char, ((fixLine l).1).count (Char.ofNat 10) = l.count (Char.ofNat 10)) := by
  refine ⟨?_, ?_, ?_⟩
  · intro lines
    simp [fix_syntax_errors]
  · intro l h1 h2 h3 h4
    simp only [fixLine, if_neg h1, if_neg h2, if_neg h3, h4, Bool.false_eq_true, if_false]
  · intro l
    have hIf : (replaceAll pIf (chars ("if")) l).count (Char.ofNat 10) =
        l.count (Char.ofNat 10) :=
      count_replaceAll _ _ _ _ (by decide) (by decide) (by decide)
    have hRet : (replaceAll pReturn (chars ("return")) l).count (Char.ofNat 10) =
        l.count (Char.ofNat 10) :=
      count_replaceAll _ _ _ _ (by decide) (by decide) (by decide)
    have hDef : (reSubDefer l).count (Char.ofNat 10) = l.count (Char.ofNat 10) :=
      count_reSubDefer _ (by decide) (by decide) l
    have hDbl : (reSubDouble l).count (Char.ofNat 10) = l.count (Char.ofNat 10) :=
      count_reSubDouble _ (by decide) l
    by_cases b4 : hasDouble l
    · simp [fixLine, b4, hDbl]
    · by_cases b3 : pDefer <:+: l
      · simp [fixLine, b3, b4, hDef]
      · by_cases b2 : pReturn <:+: l
        · simp [fixLine, b2, b3, b4, hRet]
        · by_cases b1 : pIf <:+: l
          · simp [fixLine, b1, b2, b3, b4, hIf]
          · simp [fixLine, b1, b2, b3, b4]

theorem c9_witness : fixLine (chars ("x := y\n")) = (chars ("x := y\n"), false) :=
  c9_line_structure.2.1 (chars ("x := y\n")) (by decide) (by decide) (by decide) (by decide)

end EvmFix
